import Mathlib

/-!
Verification of the `pkcs7pad` Go package (file `pkcs7pad.go`).

Byte buffers are modelled as `List Nat` (each element a byte value, `< 256`
where a claim needs it).  Go's `(slice, error)` return pair of `Unpad` is
modelled as `Option (List Nat) × Option PKCS7Error`; a `panic` in `Pad` is
modelled as `none`.  The helpers from Go's `crypto/subtle` are embedded by
their documented input/output semantics (their arguments here are always
small non-negative integers, the domain on which they are specified).
-/

namespace Pkcs7pad

/-- Model of `subtle.ConstantTimeLessOrEq(x, y)`: `1` if `x ≤ y`, else `0`
(specified for small non-negative arguments, which is how the source uses it). -/
def ConstantTimeLessOrEq (x y : Nat) : Nat :=
  if x ≤ y then 1 else 0

/-- Model of `subtle.ConstantTimeByteEq(x, y)`: `1` if the bytes are equal, else `0`. -/
def ConstantTimeByteEq (x y : Nat) : Nat :=
  if x = y then 1 else 0

/-- Model of `subtle.ConstantTimeSelect(v, x, y)`: `x` if `v == 1`, `y` if `v == 0`. -/
def ConstantTimeSelect (v x y : Nat) : Nat :=
  if v = 1 then x else y

/-- The single error kind of the package. -/
inductive PKCS7Error where
  | BadPadding
deriving DecidableEq, Repr

/-- `var errPKCS7Padding = errors.New("pkcs7pad: bad padding")`. -/
def errPKCS7Padding : PKCS7Error := PKCS7Error.BadPadding

/-- Embedding of `Pad(buf []byte, size int) []byte`.  The block-size guard
panics in Go; the panic is modelled as `none`.  `bytes.Repeat([]byte{byte(i)}, i)`
is `List.replicate i (i % 256)` (`byte(i)` truncates to 8 bits). -/
def Pad (buf : List Nat) (size : Int) : Option (List Nat) :=
  if size < 1 ∨ size > 255 then
    none
  else
    let i : Nat := size.toNat - buf.length % size.toNat
    some (buf ++ List.replicate i (i % 256))

/-- Body of the validation loop of `Unpad`, exactly as in the source:

    b := buf[len(buf)-1-i]
    outOfRange := subtle.ConstantTimeLessOrEq(int(padLen), i)
    equal := subtle.ConstantTimeByteEq(padLen, b)
    good &= subtle.ConstantTimeSelect(outOfRange, 1, equal)
-/
def unpadStep (buf : List Nat) (padLen : Nat) (good : Nat) (i : Nat) : Nat :=
  let b := buf.getD (buf.length - 1 - i) 0
  let outOfRange := ConstantTimeLessOrEq padLen i
  let equal := ConstantTimeByteEq padLen b
  good &&& ConstantTimeSelect outOfRange 1 equal

/-- Embedding of `Unpad(buf []byte) ([]byte, error)`.  The returned pair is
Go's `(slice, error)`; `buf[k]` is `buf.getD k 0` (all indices are proved in
range in `unpad_inbounds`).  The `for` loop over `i in [0, toCheck)` is a
`foldl` of `unpadStep` over `List.range toCheck`. -/
def Unpad (buf : List Nat) : Option (List Nat) × Option PKCS7Error :=
  if buf.length = 0 then
    (none, some errPKCS7Padding)
  else
    let padLen := buf.getD (buf.length - 1) 0
    let toCheck := if 255 > buf.length then buf.length else 255
    let good := (List.range toCheck).foldl (unpadStep buf padLen) 1
    let good := good &&& ConstantTimeLessOrEq 1 padLen
    let good := good &&& ConstantTimeLessOrEq padLen buf.length
    if good ≠ 1 then
      (none, some errPKCS7Padding)
    else
      (some (buf.take (buf.length - padLen)), none)

/-- Loop body of `UnpadInstrumented`: performs exactly the computation of
`unpadStep` on the first state component and appends the index of the buffer
read this iteration performs to the trace component. -/
def unpadStepInstrumented (buf : List Nat) (padLen : Nat)
    (s : Nat × List Nat) (i : Nat) : Nat × List Nat :=
  (unpadStep buf padLen s.1 i, s.2 ++ [buf.length - 1 - i])

/-- Instrumented copy of `Unpad`: the same computation, additionally recording
the index of every buffer read it performs, in order (the read of the last
byte for `padLen`, then the read at each loop iteration).  The second
component is the memory-access trace. -/
def UnpadInstrumented (buf : List Nat) :
    (Option (List Nat) × Option PKCS7Error) × List Nat :=
  if buf.length = 0 then
    ((none, some errPKCS7Padding), [])
  else
    let padLen := buf.getD (buf.length - 1) 0
    let toCheck := if 255 > buf.length then buf.length else 255
    let state :=
      (List.range toCheck).foldl (unpadStepInstrumented buf padLen)
        (1, [buf.length - 1])
    let good := state.1 &&& ConstantTimeLessOrEq 1 padLen
    let good := good &&& ConstantTimeLessOrEq padLen buf.length
    if good ≠ 1 then
      ((none, some errPKCS7Padding), state.2)
    else
      ((some (buf.take (buf.length - padLen)), none), state.2)

/-- The set of buffers `Unpad`'s accumulator accepts, read off from the three
`good`-conjuncts of the source: every examined trailing position is either out
of range of the claimed padding or holds the padding value, and
`1 ≤ padLen ≤ len(buf)`. -/
def GoodPadding (buf : List Nat) : Prop :=
  (∀ i < min 255 buf.length,
      buf.getD (buf.length - 1) 0 ≤ i ∨
        buf.getD (buf.length - 1 - i) 0 = buf.getD (buf.length - 1) 0) ∧
  1 ≤ buf.getD (buf.length - 1) 0 ∧
  buf.getD (buf.length - 1) 0 ≤ buf.length

instance (buf : List Nat) : Decidable (GoodPadding buf) := by
  unfold GoodPadding
  infer_instance

/-! ### Helper lemmas about the bit accumulator -/

theorem cte_le_one (x y : Nat) : ConstantTimeLessOrEq x y ≤ 1 := by
  unfold ConstantTimeLessOrEq
  split <;> simp

theorem cte_eq_one_iff (x y : Nat) : ConstantTimeLessOrEq x y = 1 ↔ x ≤ y := by
  unfold ConstantTimeLessOrEq
  split <;> simp [*]

theorem land_le_one {a : Nat} (b : Nat) (ha : a ≤ 1) : a &&& b ≤ 1 :=
  le_trans Nat.and_le_left ha

theorem land_eq_one_iff {a b : Nat} (ha : a ≤ 1) (hb : b ≤ 1) :
    a &&& b = 1 ↔ a = 1 ∧ b = 1 := by
  rcases Nat.le_one_iff_eq_zero_or_eq_one.mp ha with h | h <;>
    rcases Nat.le_one_iff_eq_zero_or_eq_one.mp hb with h2 | h2 <;>
      subst h <;> subst h2 <;> decide

theorem unpadStep_le_one (buf : List Nat) (padLen good i : Nat) (hg : good ≤ 1) :
    unpadStep buf padLen good i ≤ 1 :=
  land_le_one _ hg

theorem foldl_unpadStep_le_one (buf : List Nat) (padLen : Nat) (l : List Nat)
    (a : Nat) (ha : a ≤ 1) : l.foldl (unpadStep buf padLen) a ≤ 1 := by
  induction l generalizing a with
  | nil => exact ha
  | cons x xs ih => exact ih _ (unpadStep_le_one _ _ _ _ ha)

theorem unpadStep_eq_one_iff (buf : List Nat) (padLen good i : Nat) (hg : good ≤ 1) :
    unpadStep buf padLen good i = 1 ↔
      good = 1 ∧ (padLen ≤ i ∨ buf.getD (buf.length - 1 - i) 0 = padLen) := by
  have hsel : ConstantTimeSelect (ConstantTimeLessOrEq padLen i) 1
      (ConstantTimeByteEq padLen (buf.getD (buf.length - 1 - i) 0)) ≤ 1 := by
    unfold ConstantTimeSelect ConstantTimeLessOrEq ConstantTimeByteEq
    split_ifs <;> simp
  simp only [unpadStep]
  rw [land_eq_one_iff hg hsel]
  unfold ConstantTimeSelect ConstantTimeLessOrEq ConstantTimeByteEq
  split_ifs with h1 h2 <;> simp_all [eq_comm]

theorem foldl_unpadStep_eq_one_iff (buf : List Nat) (padLen k : Nat) :
    ((List.range k).foldl (unpadStep buf padLen) 1 = 1) ↔
      ∀ i < k, padLen ≤ i ∨ buf.getD (buf.length - 1 - i) 0 = padLen := by
  induction k with
  | zero => simp
  | succ k ih =>
    rw [List.range_succ, List.foldl_append, List.foldl_cons, List.foldl_nil,
      unpadStep_eq_one_iff _ _ _ _ (foldl_unpadStep_le_one _ _ _ _ (le_refl 1)), ih]
    constructor
    · rintro ⟨h1, h2⟩ i hi
      rcases Nat.lt_succ_iff_lt_or_eq.mp hi with h | h
      · exact h1 i h
      · exact h ▸ h2
    · intro h
      exact ⟨fun i hi => h i (Nat.lt_succ_of_lt hi), h k (Nat.lt_succ_self k)⟩

theorem toCheck_eq_min (n : Nat) : (if 255 > n then n else 255) = min 255 n := by
  rw [Nat.min_def]
  split <;> split <;> omega

/-- The final value of `good` in `Unpad` is `1` exactly on `GoodPadding` buffers. -/
theorem good_eq_one_iff (buf : List Nat) :
    (((List.range (if 255 > buf.length then buf.length else 255)).foldl
          (unpadStep buf (buf.getD (buf.length - 1) 0)) 1 &&&
        ConstantTimeLessOrEq 1 (buf.getD (buf.length - 1) 0)) &&&
        ConstantTimeLessOrEq (buf.getD (buf.length - 1) 0) buf.length) = 1
      ↔ GoodPadding buf := by
  rw [toCheck_eq_min,
    land_eq_one_iff (land_le_one _ (foldl_unpadStep_le_one _ _ _ _ (le_refl 1)))
      (cte_le_one _ _),
    land_eq_one_iff (foldl_unpadStep_le_one _ _ _ _ (le_refl 1)) (cte_le_one _ _),
    foldl_unpadStep_eq_one_iff, cte_eq_one_iff, cte_eq_one_iff]
  unfold GoodPadding
  tauto

/-- `Unpad` on a non-empty buffer, as a single `if` on `GoodPadding`. -/
theorem Unpad_eq_ite (buf : List Nat) (h : ¬buf.length = 0) :
    Unpad buf =
      if GoodPadding buf then
        (some (buf.take (buf.length - buf.getD (buf.length - 1) 0)), none)
      else
        (none, some errPKCS7Padding) := by
  by_cases hg : GoodPadding buf
  · simp only [Unpad, if_neg h, if_pos hg]
    rw [if_neg]
    simp only [ne_eq, not_not]
    exact (good_eq_one_iff buf).mpr hg
  · simp only [Unpad, if_neg h, if_neg hg]
    rw [if_pos]
    simp only [ne_eq]
    intro hcontra
    exact hg ((good_eq_one_iff buf).mp hcontra)

theorem getD_replicate_lt (n k a d : Nat) (h : k < n) :
    (List.replicate n a).getD k d = a := by
  rw [List.getD_eq_getElem _ _ (by simpa using h)]
  simp

/-- On a valid block size, `Pad` appends `padCount` copies of the byte
`padCount` (the `byte(i)` truncation is the identity there). -/
theorem Pad_eq_some (buf : List Nat) (size : Int) (h1 : 1 ≤ size) (h2 : size ≤ 255) :
    Pad buf size =
      some (buf ++ List.replicate (size.toNat - buf.length % size.toNat)
        (size.toNat - buf.length % size.toNat)) := by
  have hng : ¬(size < 1 ∨ size > 255) := by omega
  have hpos : 0 < size.toNat := by omega
  have hlt : buf.length % size.toNat < size.toNat := Nat.mod_lt _ hpos
  have hle : size.toNat ≤ 255 := by omega
  simp only [Pad, if_neg hng]
  rw [Nat.mod_eq_of_lt (show size.toNat - buf.length % size.toNat < 256 by omega)]

/-! ### Claims about `Pad` -/

/-- C5: for every buffer and block size `S ∈ [1,255]`, `Pad` computes
`padCount = S - (len(buffer) mod S)`, always in `[1, S]`, and appends exactly
`padCount` bytes each of value `padCount`; when `len(buffer) mod S = 0` it
appends a full block of `S` bytes of value `S`, and it never appends zero
bytes. -/
theorem pad_appends_padCount (buf : List Nat) (size : Int)
    (h1 : 1 ≤ size) (h2 : size ≤ 255) :
    1 ≤ size.toNat - buf.length % size.toNat ∧
    size.toNat - buf.length % size.toNat ≤ size.toNat ∧
    Pad buf size =
      some (buf ++ List.replicate (size.toNat - buf.length % size.toNat)
        (size.toNat - buf.length % size.toNat)) ∧
    (buf.length % size.toNat = 0 → size.toNat - buf.length % size.toNat = size.toNat) := by
  have hpos : 0 < size.toNat := by omega
  have hlt : buf.length % size.toNat < size.toNat := Nat.mod_lt _ hpos
  exact ⟨by omega, by omega, Pad_eq_some buf size h1 h2, by omega⟩

/-- Witness for `pad_appends_padCount` at `buf = [9, 9]`, `size = 4`. -/
theorem pad_appends_padCount_witness :
    (1:Int) ≤ 4 ∧ (4:Int) ≤ 255 ∧
    (1 ≤ (4:Int).toNat - [9, 9].length % (4:Int).toNat ∧
      (4:Int).toNat - [9, 9].length % (4:Int).toNat ≤ (4:Int).toNat ∧
      Pad [9, 9] 4 =
        some ([9, 9] ++ List.replicate ((4:Int).toNat - [9, 9].length % (4:Int).toNat)
          ((4:Int).toNat - [9, 9].length % (4:Int).toNat)) ∧
      ([9, 9].length % (4:Int).toNat = 0 →
        (4:Int).toNat - [9, 9].length % (4:Int).toNat = (4:Int).toNat)) :=
  ⟨by decide, by decide, pad_appends_padCount [9, 9] 4 (by decide) (by decide)⟩

/-- C6: for `S ∈ [1,255]`, the length of `Pad(B, S)` is the smallest multiple
of `S` that is at least `len(B) + 1`; in particular it is divisible by `S`
and strictly greater than `len(B)`. -/
theorem pad_length_smallest_multiple (buf : List Nat) (size : Int)
    (h1 : 1 ≤ size) (h2 : size ≤ 255) (p : List Nat) (hp : Pad buf size = some p) :
    p.length % size.toNat = 0 ∧ buf.length + 1 ≤ p.length ∧
    ∀ m, m % size.toNat = 0 → buf.length + 1 ≤ m → p.length ≤ m := by
  rw [Pad_eq_some buf size h1 h2] at hp
  have hpeq := Option.some_inj.mp hp
  have hpos : 0 < size.toNat := by omega
  have hmod := Nat.div_add_mod buf.length size.toNat
  have hltm : buf.length % size.toNat < size.toNat := Nat.mod_lt _ hpos
  have hplen : p.length = size.toNat * (buf.length / size.toNat + 1) := by
    rw [← hpeq, List.length_append, List.length_replicate, Nat.mul_succ]
    omega
  refine ⟨?_, ?_, ?_⟩
  · rw [hplen]
    exact Nat.mul_mod_right _ _
  · rw [← hpeq, List.length_append, List.length_replicate]
    omega
  · intro m hm hm2
    obtain ⟨k, hk⟩ : size.toNat ∣ m := Nat.dvd_of_mod_eq_zero hm
    have hq : buf.length / size.toNat < k := by
      by_contra hcon
      push_neg at hcon
      have h3 : m ≤ size.toNat * (buf.length / size.toNat) :=
        hk ▸ Nat.mul_le_mul_left _ hcon
      omega
    rw [hplen, hk]
    exact Nat.mul_le_mul_left _ hq

/-- Witness for `pad_length_smallest_multiple` at `buf = [9, 9, 9]`, `size = 3`. -/
theorem pad_length_smallest_multiple_witness :
    (1:Int) ≤ 3 ∧ (3:Int) ≤ 255 ∧ Pad [9, 9, 9] 3 = some [9, 9, 9, 3, 3, 3] ∧
    ([9, 9, 9, 3, 3, 3].length % (3:Int).toNat = 0 ∧
      [9, 9, 9].length + 1 ≤ [9, 9, 9, 3, 3, 3].length ∧
      ∀ m, m % (3:Int).toNat = 0 → [9, 9, 9].length + 1 ≤ m →
        [9, 9, 9, 3, 3, 3].length ≤ m) :=
  ⟨by decide, by decide, by decide,
    pad_length_smallest_multiple [9, 9, 9] 3 (by decide) (by decide)
      [9, 9, 9, 3, 3, 3] (by decide)⟩

/-- C8: `Pad` aborts (panics) exactly on block sizes outside `[1, 255]`; on
every block size inside that range it returns a value (never panics). -/
theorem pad_panics_iff (buf : List Nat) (size : Int) :
    Pad buf size = none ↔ (size < 1 ∨ size > 255) := by
  by_cases h : size < 1 ∨ size > 255 <;> simp [Pad, h]

/-! ### Round trip -/

/-- C1: for every buffer `B` (including the empty one) and every block size
`S ∈ [1, 255]`, `Unpad (Pad B S)` succeeds and returns exactly `B`. -/
theorem unpad_pad_roundtrip (buf : List Nat) (size : Int)
    (h1 : 1 ≤ size) (h2 : size ≤ 255) :
    ∃ p, Pad buf size = some p ∧ Unpad p = (some buf, none) := by
  have hpos : 0 < size.toNat := by omega
  have hlt : buf.length % size.toNat < size.toNat := Nat.mod_lt _ hpos
  set pc := size.toNat - buf.length % size.toNat with hpcdef
  have hpc1 : 1 ≤ pc := by omega
  have hpc255 : pc ≤ 255 := by omega
  refine ⟨buf ++ List.replicate pc pc, Pad_eq_some buf size h1 h2, ?_⟩
  set p := buf ++ List.replicate pc pc with hpdef
  have hlen : p.length = buf.length + pc := by
    rw [hpdef, List.length_append, List.length_replicate]
  have hlast : ∀ i < pc, p.getD (p.length - 1 - i) 0 = pc := by
    intro i hi
    have hidx : p.length - 1 - i = buf.length + (pc - 1 - i) := by omega
    rw [hidx, hpdef, List.getD_append_right _ _ _ _ (by omega)]
    have h3 : buf.length + (pc - 1 - i) - buf.length = pc - 1 - i := by omega
    rw [h3]
    exact getD_replicate_lt _ _ _ _ (by omega)
  have hpadLen : p.getD (p.length - 1) 0 = pc := by
    have h4 := hlast 0 hpc1
    simpa using h4
  have hne : ¬p.length = 0 := by omega
  rw [Unpad_eq_ite p hne]
  have hgood : GoodPadding p := by
    refine ⟨?_, ?_, ?_⟩
    · intro i hi
      rw [hpadLen]
      by_cases hip : i < pc
      · exact Or.inr (hlast i hip)
      · exact Or.inl (by omega)
    · rw [hpadLen]
      exact hpc1
    · rw [hpadLen]
      omega
  rw [if_pos hgood, hpadLen]
  have h5 : p.length - pc = buf.length := by omega
  rw [h5, hpdef, List.take_left]

/-- Witness for `unpad_pad_roundtrip` at `buf = [7, 8, 9]`, `size = 4`. -/
theorem unpad_pad_roundtrip_witness :
    (1:Int) ≤ 4 ∧ (4:Int) ≤ 255 ∧
    ∃ p, Pad [7, 8, 9] 4 = some p ∧ Unpad p = (some [7, 8, 9], none) :=
  ⟨by decide, by decide, unpad_pad_roundtrip [7, 8, 9] 4 (by decide) (by decide)⟩

/-! ### Acceptance and rejection of `Unpad` -/

theorem padLen_lt_256 (buf : List Nat) (h : ¬buf.length = 0)
    (hb : ∀ b ∈ buf, b < 256) : buf.getD (buf.length - 1) 0 < 256 := by
  rw [List.getD_eq_getElem _ _ (by omega)]
  exact hb _ (List.getElem_mem _)

/-- For byte buffers, `GoodPadding` coincides with the spec's invariant:
some count `c ∈ [1, min 255 n]` is the last byte and fills the last `c`
positions. -/
theorem goodPadding_iff_spec (buf : List Nat) (h : ¬buf.length = 0)
    (hb : ∀ b ∈ buf, b < 256) :
    GoodPadding buf ↔
      ∃ c, 1 ≤ c ∧ c ≤ min 255 buf.length ∧
        buf.getD (buf.length - 1) 0 = c ∧
        ∀ j < c, buf.getD (buf.length - 1 - j) 0 = c := by
  have h256 := padLen_lt_256 buf h hb
  constructor
  · rintro ⟨hall, hg1, hg2⟩
    refine ⟨buf.getD (buf.length - 1) 0, hg1, by omega, rfl, ?_⟩
    intro j hj
    rcases hall j (by omega) with hc | hc
    · omega
    · exact hc
  · rintro ⟨c, h1c, h2c, h3c, h4c⟩
    refine ⟨?_, by omega, by omega⟩
    intro i hi
    by_cases hic : i < c
    · exact Or.inr (by rw [h3c]; exact h4c i hic)
    · exact Or.inl (by omega)

/-- C2: for a byte buffer `B` of length `n`, `Unpad` succeeds exactly when
some count `c ∈ [1, min 255 n]` equals the last byte of `B` and each of the
last `c` bytes has value `c`; every other byte buffer is rejected with the
padding error. -/
theorem unpad_accepts_iff (buf : List Nat) (hb : ∀ b ∈ buf, b < 256) :
    ((Unpad buf).2 = none ↔
      ∃ c, 1 ≤ c ∧ c ≤ min 255 buf.length ∧
        buf.getD (buf.length - 1) 0 = c ∧
        ∀ j < c, buf.getD (buf.length - 1 - j) 0 = c) ∧
    ((Unpad buf).2 = none ∨ (Unpad buf).2 = some errPKCS7Padding) := by
  by_cases h : buf.length = 0
  · have hU : Unpad buf = (none, some errPKCS7Padding) := by
      simp only [Unpad, if_pos h]
    rw [hU]
    refine ⟨⟨fun hc => absurd hc (by simp), ?_⟩, Or.inr rfl⟩
    rintro ⟨c, h1c, h2c, -, -⟩
    exfalso
    omega
  · rw [Unpad_eq_ite buf h]
    by_cases hg : GoodPadding buf
    · rw [if_pos hg]
      exact ⟨⟨fun _ => (goodPadding_iff_spec buf h hb).mp hg, fun _ => rfl⟩,
        Or.inl rfl⟩
    · rw [if_neg hg]
      exact ⟨⟨fun hc => absurd hc (by simp),
        fun hc => absurd ((goodPadding_iff_spec buf h hb).mpr hc) hg⟩, Or.inr rfl⟩

/-- Witness for `unpad_accepts_iff` at `buf = [65, 66, 2, 2]`. -/
theorem unpad_accepts_iff_witness :
    (∀ b ∈ [65, 66, 2, 2], b < 256) ∧
    (((Unpad [65, 66, 2, 2]).2 = none ↔
      ∃ c, 1 ≤ c ∧ c ≤ min 255 [65, 66, 2, 2].length ∧
        [65, 66, 2, 2].getD ([65, 66, 2, 2].length - 1) 0 = c ∧
        ∀ j < c, [65, 66, 2, 2].getD ([65, 66, 2, 2].length - 1 - j) 0 = c) ∧
    ((Unpad [65, 66, 2, 2]).2 = none ∨
      (Unpad [65, 66, 2, 2]).2 = some errPKCS7Padding)) :=
  ⟨by decide, unpad_accepts_iff [65, 66, 2, 2] (by decide)⟩

/-- For byte buffers, failure of `GoodPadding` matches the spec's list of
error conditions on a non-empty buffer. -/
theorem not_goodPadding_iff (buf : List Nat) (h : ¬buf.length = 0)
    (hb : ∀ b ∈ buf, b < 256) :
    ¬GoodPadding buf ↔
      buf.getD (buf.length - 1) 0 = 0 ∨
      buf.length < buf.getD (buf.length - 1) 0 ∨
      ∃ i < buf.getD (buf.length - 1) 0,
        buf.getD (buf.length - 1 - i) 0 ≠ buf.getD (buf.length - 1) 0 := by
  have h256 := padLen_lt_256 buf h hb
  constructor
  · intro hng
    by_cases h1 : buf.getD (buf.length - 1) 0 = 0
    · exact Or.inl h1
    by_cases h2 : buf.length < buf.getD (buf.length - 1) 0
    · exact Or.inr (Or.inl h2)
    refine Or.inr (Or.inr ?_)
    by_contra hno
    push_neg at hno
    apply hng
    refine ⟨?_, by omega, by omega⟩
    intro i hi
    by_cases hic : i < buf.getD (buf.length - 1) 0
    · exact Or.inr (hno i hic)
    · exact Or.inl (by omega)
  · rintro (h1 | h2 | ⟨i, hi, hneq⟩) ⟨hall, hg1, hg2⟩
    · omega
    · omega
    · rcases hall i (by omega) with hc | hc
      · omega
      · exact hneq hc

/-- C3: `Unpad` has exactly one error outcome, `BadPadding`, raised exactly
when the buffer is empty, the last byte is `0`, the last byte exceeds the
buffer length, or one of the last `padValue` bytes differs from `padValue`;
no other error kind is ever returned. -/
theorem unpad_error_iff (buf : List Nat) (hb : ∀ b ∈ buf, b < 256) :
    (∀ e, (Unpad buf).2 = some e → e = PKCS7Error.BadPadding) ∧
    ((Unpad buf).2 = some PKCS7Error.BadPadding ↔
      buf = [] ∨ buf.getD (buf.length - 1) 0 = 0 ∨
      buf.length < buf.getD (buf.length - 1) 0 ∨
      ∃ i < buf.getD (buf.length - 1) 0,
        buf.getD (buf.length - 1 - i) 0 ≠ buf.getD (buf.length - 1) 0) := by
  refine ⟨fun e _ => by cases e; rfl, ?_⟩
  by_cases h : buf.length = 0
  · have hbuf : buf = [] := List.length_eq_zero.mp h
    have hU : Unpad buf = (none, some errPKCS7Padding) := by
      simp only [Unpad, if_pos h]
    rw [hU]
    exact ⟨fun _ => Or.inl hbuf, fun _ => rfl⟩
  · rw [Unpad_eq_ite buf h]
    have hne : ¬buf = [] := fun hc => h (by rw [hc]; rfl)
    by_cases hg : GoodPadding buf
    · rw [if_pos hg]
      constructor
      · intro hc
        exact absurd hc (by simp)
      · intro hc
        rcases hc with hc | hc
        · exact absurd hc hne
        · exact absurd hg ((not_goodPadding_iff buf h hb).mpr hc)
    · rw [if_neg hg]
      constructor
      · intro _
        exact Or.inr ((not_goodPadding_iff buf h hb).mp hg)
      · intro _
        rfl

/-- Witness for `unpad_error_iff` at `buf = [1, 2, 3, 2]` (the spec's
inconsistent-filler rejection example). -/
theorem unpad_error_iff_witness :
    (∀ b ∈ [1, 2, 3, 2], b < 256) ∧
    ((∀ e, (Unpad [1, 2, 3, 2]).2 = some e → e = PKCS7Error.BadPadding) ∧
    ((Unpad [1, 2, 3, 2]).2 = some PKCS7Error.BadPadding ↔
      [1, 2, 3, 2] = ([] : List Nat) ∨ [1, 2, 3, 2].getD ([1, 2, 3, 2].length - 1) 0 = 0 ∨
      [1, 2, 3, 2].length < [1, 2, 3, 2].getD ([1, 2, 3, 2].length - 1) 0 ∨
      ∃ i < [1, 2, 3, 2].getD ([1, 2, 3, 2].length - 1) 0,
        [1, 2, 3, 2].getD ([1, 2, 3, 2].length - 1 - i) 0 ≠
          [1, 2, 3, 2].getD ([1, 2, 3, 2].length - 1) 0)) :=
  ⟨by decide, unpad_error_iff [1, 2, 3, 2] (by decide)⟩

/-! ### Shape of `Unpad`'s results -/

/-- C7: whenever `Unpad` succeeds on a buffer of length `n` whose last byte is
`padValue`, it returns exactly `buffer[0 : n - padValue]`, a prefix (subslice)
of the input. -/
theorem unpad_returns_prefix (buf out : List Nat) (h : (Unpad buf).1 = some out) :
    out = buf.take (buf.length - buf.getD (buf.length - 1) 0) ∧ out <+: buf := by
  by_cases h0 : buf.length = 0
  · rw [show Unpad buf = (none, some errPKCS7Padding) from by
      simp only [Unpad, if_pos h0]] at h
    exact absurd h (by simp)
  · rw [Unpad_eq_ite buf h0] at h
    by_cases hg : GoodPadding buf
    · rw [if_pos hg] at h
      have hout : out = buf.take (buf.length - buf.getD (buf.length - 1) 0) :=
        (Option.some_inj.mp h).symm
      exact ⟨hout, hout ▸ List.take_prefix _ _⟩
    · rw [if_neg hg] at h
      exact absurd h (by simp)

/-- Witness for `unpad_returns_prefix` at `buf = [65, 66, 2, 2]`. -/
theorem unpad_returns_prefix_witness :
    (Unpad [65, 66, 2, 2]).1 = some [65, 66] ∧
    ([65, 66] = [65, 66, 2, 2].take ([65, 66, 2, 2].length -
        [65, 66, 2, 2].getD ([65, 66, 2, 2].length - 1) 0) ∧
      [65, 66] <+: [65, 66, 2, 2]) :=
  ⟨by decide, unpad_returns_prefix [65, 66, 2, 2] [65, 66] (by decide)⟩

/-- C9: every byte access `Unpad` performs is in bounds: for each loop
iteration `i < toCheck` the read index `len(buf) - 1 - i` lies in
`[0, len(buf))`, and on the success path the slice bound
`len(buf) - int(padLen)` lies in `[0, len(buf)]`; so `Unpad` never faults. -/
theorem unpad_inbounds (buf : List Nat) (h : buf ≠ []) :
    (∀ i < (if 255 > buf.length then buf.length else 255),
        0 ≤ (buf.length : Int) - 1 - i ∧ (buf.length : Int) - 1 - i < buf.length) ∧
    (∀ out, (Unpad buf).1 = some out →
        0 ≤ (buf.length : Int) - (buf.getD (buf.length - 1) 0 : Nat) ∧
        (buf.length : Int) - (buf.getD (buf.length - 1) 0 : Nat) ≤ buf.length) := by
  have hpos : 0 < buf.length := List.length_pos.mpr h
  constructor
  · intro i hi
    rw [toCheck_eq_min] at hi
    omega
  · intro out hout
    rw [Unpad_eq_ite buf (by omega)] at hout
    by_cases hg : GoodPadding buf
    · have hle : buf.getD (buf.length - 1) 0 ≤ buf.length := hg.2.2
      omega
    · rw [if_neg hg] at hout
      exact absurd hout (by simp)

/-- Witness for `unpad_inbounds` at `buf = [65, 66, 2, 2]`. -/
theorem unpad_inbounds_witness :
    ([65, 66, 2, 2] : List Nat) ≠ [] ∧
    ((∀ i < (if 255 > [65, 66, 2, 2].length then [65, 66, 2, 2].length else 255),
        0 ≤ ([65, 66, 2, 2].length : Int) - 1 - i ∧
        ([65, 66, 2, 2].length : Int) - 1 - i < [65, 66, 2, 2].length) ∧
    (∀ out, (Unpad [65, 66, 2, 2]).1 = some out →
        0 ≤ ([65, 66, 2, 2].length : Int) -
          ([65, 66, 2, 2].getD ([65, 66, 2, 2].length - 1) 0 : Nat) ∧
        ([65, 66, 2, 2].length : Int) -
          ([65, 66, 2, 2].getD ([65, 66, 2, 2].length - 1) 0 : Nat) ≤
          [65, 66, 2, 2].length)) :=
  ⟨by decide, unpad_inbounds [65, 66, 2, 2] (by decide)⟩

/-- C10: on every failure, `Unpad` returns the nil buffer together with the
`BadPadding` error — never a partial prefix alongside an error. -/
theorem unpad_failure_returns_nil (buf : List Nat) (e : PKCS7Error)
    (h : (Unpad buf).2 = some e) :
    (Unpad buf).1 = none ∧ e = PKCS7Error.BadPadding := by
  refine ⟨?_, by cases e; rfl⟩
  by_cases h0 : buf.length = 0
  · simp only [Unpad, if_pos h0]
  · rw [Unpad_eq_ite buf h0] at h ⊢
    by_cases hg : GoodPadding buf
    · rw [if_pos hg] at h
      exact absurd h (by simp)
    · rw [if_neg hg]

/-- Witness for `unpad_failure_returns_nil` at `buf = [1, 2, 3, 2]`. -/
theorem unpad_failure_returns_nil_witness :
    (Unpad [1, 2, 3, 2]).2 = some PKCS7Error.BadPadding ∧
    ((Unpad [1, 2, 3, 2]).1 = none ∧
      PKCS7Error.BadPadding = PKCS7Error.BadPadding) :=
  ⟨by decide, unpad_failure_returns_nil [1, 2, 3, 2] PKCS7Error.BadPadding (by decide)⟩

/-! ### Constant-time shape of `Unpad` -/

theorem foldl_instr_fst (buf : List Nat) (padLen : Nat) (l : List Nat)
    (a : Nat) (t : List Nat) :
    (l.foldl (unpadStepInstrumented buf padLen) (a, t)).1 =
      l.foldl (unpadStep buf padLen) a := by
  induction l generalizing a t with
  | nil => rfl
  | cons x xs ih => exact ih _ _

theorem foldl_instr_snd (buf : List Nat) (padLen : Nat) (l : List Nat)
    (a : Nat) (t : List Nat) :
    (l.foldl (unpadStepInstrumented buf padLen) (a, t)).2 =
      t ++ l.map (fun i => buf.length - 1 - i) := by
  induction l generalizing a t with
  | nil => simp
  | cons x xs ih =>
    rw [List.foldl_cons, List.map_cons, ih]
    simp [unpadStepInstrumented]

/-- Erasing the instrumentation from `UnpadInstrumented` gives back `Unpad`. -/
theorem unpadInstrumented_fst (buf : List Nat) :
    (UnpadInstrumented buf).1 = Unpad buf := by
  by_cases h : buf.length = 0
  · simp only [UnpadInstrumented, Unpad, if_pos h]
  · simp only [UnpadInstrumented, Unpad, if_neg h, apply_ite Prod.fst,
      foldl_instr_fst]

/-- The memory-access trace of `UnpadInstrumented` on a non-empty buffer:
the read of the last byte, then one read per loop iteration, regardless of
which branch the final `if` takes. -/
theorem unpadInstrumented_trace (buf : List Nat) (h : ¬buf.length = 0) :
    (UnpadInstrumented buf).2 =
      (buf.length - 1) ::
        (List.range (if 255 > buf.length then buf.length else 255)).map
          (fun i => buf.length - 1 - i) := by
  simp only [UnpadInstrumented, if_neg h, apply_ite Prod.snd, foldl_instr_snd,
    ite_self, List.singleton_append]

/-- C4: for a fixed input length, `Unpad`'s control flow and memory-access
pattern are independent of the buffer's content: any two buffers of equal
length produce identical access traces, the validation loop performs exactly
`toCheck = min 255 (len buf)` reads (one per iteration, with no data-dependent
branch cutting it short — the trace is the length-determined read of the last
byte followed by exactly `toCheck` loop reads), and the instrumented function
erases to `Unpad` itself. -/
theorem unpad_constant_time (b1 b2 : List Nat) (hlen : b1.length = b2.length) :
    (UnpadInstrumented b1).2 = (UnpadInstrumented b2).2 ∧
    (b1.length ≠ 0 →
      (UnpadInstrumented b1).2 =
        (b1.length - 1) ::
          (List.range (min 255 b1.length)).map (fun i => b1.length - 1 - i) ∧
      (UnpadInstrumented b1).2.length = 1 + min 255 b1.length) ∧
    (UnpadInstrumented b1).1 = Unpad b1 := by
  refine ⟨?_, ?_, unpadInstrumented_fst b1⟩
  · by_cases h : b1.length = 0
    · have h2 : b2.length = 0 := hlen ▸ h
      simp only [UnpadInstrumented, if_pos h, if_pos h2]
    · have h2 : ¬b2.length = 0 := hlen ▸ h
      rw [unpadInstrumented_trace b1 h, unpadInstrumented_trace b2 h2, hlen]
  · intro h
    have htr := unpadInstrumented_trace b1 h
    rw [toCheck_eq_min] at htr
    refine ⟨htr, ?_⟩
    rw [htr]
    simp [Nat.add_comm]

/-- Witness for `unpad_constant_time` on the equal-length buffers
`[0, 1]` (rejected) and `[2, 2]` (accepted). -/
theorem unpad_constant_time_witness :
    ([0, 1] : List Nat).length = ([2, 2] : List Nat).length ∧
    ((UnpadInstrumented [0, 1]).2 = (UnpadInstrumented [2, 2]).2 ∧
    (([0, 1] : List Nat).length ≠ 0 →
      (UnpadInstrumented [0, 1]).2 =
        (([0, 1] : List Nat).length - 1) ::
          (List.range (min 255 ([0, 1] : List Nat).length)).map
            (fun i => ([0, 1] : List Nat).length - 1 - i) ∧
      (UnpadInstrumented [0, 1]).2.length = 1 + min 255 ([0, 1] : List Nat).length) ∧
    (UnpadInstrumented [0, 1]).1 = Unpad [0, 1]) :=
  ⟨by decide, unpad_constant_time [0, 1] [2, 2] (by decide)⟩

end Pkcs7pad
